import Mathlib

/-!
Shallow embedding of the spectre escalation engine (`src/engine.rs`).

The embedding translates the pure parts of the engine directly:

* `ResponseAnalyzer.analyze` (engine.rs 256-290) — the response classifier;
* `StructuralHasher.hash` (engine.rs 86-98) — the tag-skeleton hash, including
  a faithful model of Rust's `DefaultHasher` (SipHash-1-3 with zero keys,
  bytes fed in little-endian order as on the usual x86-64 target);
* `ClientFactory.create_client` (engine.rs 219-242) — the identity builder,
  with the external TLS transport construction kept abstract as an
  always-succeeding step (its failures come from the network library, not
  from this code);
* the baseline-hash block of `CoreEngine.run` (engine.rs 424-438) as a pure
  state transformer on the stored baseline;
* the counter updates of the worker loop (engine.rs 415-496) as a fold over
  per-attempt outcomes;
* `GridManager` (engine.rs 294-355) with `Instant` modelled as a `Nat`
  timestamp in seconds; the selection loop of `get_next_node` is written with
  explicit fuel, and the termination theorem for claim C8 shows one full
  cycle of fuel always suffices.
-/

namespace Spectre

/-! ### §4.3 Response Classifier — `ResponseAnalyzer::analyze` (engine.rs 256-290) -/

inductive Verdict where
  | Success : Verdict
  | Blocked : String → Verdict
  | Challenge : String → Verdict
deriving DecidableEq

/-- Does `pat` occur at the very start of `hay`? -/
def matchesAt : List Char → List Char → Bool
  | [], _ => true
  | _ :: _, [] => false
  | p :: ps, h :: hs => p == h && matchesAt ps hs

/-- Does `pat` occur contiguously anywhere in `hay`? -/
def occursIn (pat : List Char) : List Char → Bool
  | [] => matchesAt pat []
  | h :: hs => matchesAt pat (h :: hs) || occursIn pat hs

/-- Substring containment, modelling Rust `str::contains(&str)`. -/
def containsSub (hay pat : String) : Bool :=
  occursIn pat.data hay.data

/-- Model of Rust `str::to_lowercase` restricted to ASCII input. `Char.toLower`
lowers exactly the ASCII uppercase letters; Rust's full Unicode lowercasing
agrees with it on ASCII text, which covers every marker string the classifier
compares against. -/
def toLowerStr (s : String) : String :=
  String.mk (s.data.map Char.toLower)

/-- The block-keyword list of `ResponseAnalyzer::analyze` (engine.rs 274). -/
def block_words : List String :=
  ["access denied", "attention required", "security check"]

/-- `ResponseAnalyzer::analyze` (engine.rs 256-290). The optional logger
argument of the Rust function is a pure side channel (a debug log emitted on
the keyword rule) and does not influence the verdict, so it is omitted. -/
def analyze (status : Nat) (body : String) : Verdict :=
  let body_lower := toLowerStr body
  if containsSub body "OWASP Juice Shop" || containsSub body "app-root"
      || containsSub body "Access Granted" then
    Verdict.Success
  else if containsSub body_lower "checking your browser"
      || containsSub body_lower "enable javascript" then
    Verdict.Challenge "Generic JS"
  else if containsSub body_lower "cloudflare" && containsSub body_lower "ray id" then
    Verdict.Challenge "Cloudflare"
  else if status == 403 || status == 429 then
    Verdict.Blocked ("HTTP " ++ toString status)
  else
    match block_words.find? (fun w => containsSub body_lower w) with
    | some w => Verdict.Blocked ("Keyword: " ++ w)
    | none =>
      if 200 ≤ status && status < 300 then Verdict.Success
      else Verdict.Blocked ("Status " ++ toString status)

/-! ### §4.4 Structural Fingerprint — `StructuralHasher::hash` (engine.rs 86-98)

`StructuralHasher::hash` feeds the in-tag characters of the body into
`std::collections::hash_map::DefaultHasher`, which is SipHash-1-3 with both
keys zero.  `char`'s `Hash` instance writes the code point as a `u32` in
native byte order (little-endian on the usual x86-64 target), and the SipHash
state is a pure function of the concatenated byte stream plus its length, so
feeding characters one by one equals hashing the concatenation.  The SipHash
model below follows `library/core/src/hash/sip.rs` of the Rust standard
library, with `u64` represented as `Nat` reduced modulo `2 ^ 64`. -/

/-- 64-bit left rotation on `Nat` values below `2 ^ 64`. -/
def rotl64 (x b : Nat) : Nat :=
  ((x <<< b) % 2 ^ 64) ||| (x >>> (64 - b))

/-- The four 64-bit words of the SipHash state. -/
structure SipState where
  v0 : Nat
  v1 : Nat
  v2 : Nat
  v3 : Nat
deriving DecidableEq

/-- One SipHash round (`compress!` in Rust's sip.rs). -/
def sipRound (s : SipState) : SipState :=
  let v0 := (s.v0 + s.v1) % 2 ^ 64
  let v1 := rotl64 s.v1 13
  let v1 := v1 ^^^ v0
  let v0 := rotl64 v0 32
  let v2 := (s.v2 + s.v3) % 2 ^ 64
  let v3 := rotl64 s.v3 16
  let v3 := v3 ^^^ v2
  let v0 := (v0 + v3) % 2 ^ 64
  let v3 := rotl64 v3 21
  let v3 := v3 ^^^ v0
  let v2 := (v2 + v1) % 2 ^ 64
  let v1 := rotl64 v1 17
  let v1 := v1 ^^^ v2
  let v2 := rotl64 v2 32
  ⟨v0, v1, v2, v3⟩

/-- Little-endian word value of a byte list (first byte is least significant). -/
def bytesToWordLE (bs : List Nat) : Nat :=
  bs.foldr (fun b acc => acc * 256 + b) 0

/-- Absorb one 8-byte message word (SipHash-1-3: a single compression round). -/
def sipCompress (s : SipState) (m : Nat) : SipState :=
  let s := { s with v3 := s.v3 ^^^ m }
  let s := sipRound s
  { s with v0 := s.v0 ^^^ m }

/-- Absorb all full 8-byte blocks; return the state and the leftover tail bytes. -/
def sipProcess : SipState → List Nat → SipState × List Nat
  | s, b0 :: b1 :: b2 :: b3 :: b4 :: b5 :: b6 :: b7 :: rest =>
      sipProcess (sipCompress s (bytesToWordLE [b0, b1, b2, b3, b4, b5, b6, b7])) rest
  | s, rest => (s, rest)

/-- SipHash-1-3 of a byte stream with both keys zero, exactly the digest
`DefaultHasher::new()` followed by `finish()` computes over those bytes. -/
def siphash13 (bytes : List Nat) : Nat :=
  let s : SipState :=
    ⟨0x736f6d6570736575, 0x646f72616e646f6d, 0x6c7967656e657261, 0x7465646279746573⟩
  let st := sipProcess s bytes
  let b := ((bytes.length % 256) <<< 56) ||| bytesToWordLE st.2
  let s := st.1
  let s := { s with v3 := s.v3 ^^^ b }
  let s := sipRound s
  let s := { s with v0 := s.v0 ^^^ b }
  let s := { s with v2 := s.v2 ^^^ 0xff }
  let s := sipRound (sipRound (sipRound s))
  s.v0 ^^^ s.v1 ^^^ s.v2 ^^^ s.v3

/-- The four bytes of a `u32` in little-endian order, as written by
`Hasher::write_u32` for a `char`'s code point. -/
def u32BytesLE (n : Nat) : List Nat :=
  [n % 256, n / 2 ^ 8 % 256, n / 2 ^ 16 % 256, n / 2 ^ 24 % 256]

/-- The in-tag character filter of `StructuralHasher::hash` (engine.rs 88-96):
`<` switches the flag on before the check (so `<` itself is kept), `>`
switches it off before the check (so `>` is dropped). -/
def skeletonAux : Bool → List Char → List Char
  | _, [] => []
  | in_tag, c :: rest =>
    let in_tag := if c == '<' then true else in_tag
    let in_tag := if c == '>' then false else in_tag
    if in_tag then c :: skeletonAux in_tag rest else skeletonAux in_tag rest

/-- The characters `StructuralHasher::hash` feeds into the hasher. -/
def skeletonChars (html : String) : List Char :=
  skeletonAux false html.data

/-- `StructuralHasher::hash` (engine.rs 86-98): SipHash-1-3 over the in-tag
characters, each written as a little-endian `u32` code point. -/
def structuralHash (html : String) : Nat :=
  siphash13 ((skeletonChars html).foldr (fun c acc => u32BytesLE c.toNat ++ acc) [])

/-! ### §4.2 Identity Builder — `ClientFactory::create_client` (engine.rs 219-242)

The Rust function looks the profile key up in a `HashMap<String, String>`
(modelled as an association list), maps the profile value to an `Emulation`
variant with `Chrome130` as the fallback arm, installs one fixed `Accept`
header, optionally attaches a proxy, and then builds the TLS client.  The
build step itself belongs to the external `rquest` library; the model records
the identity-relevant configuration and treats that external construction as
succeeding, since the profile-lookup behaviour under scrutiny happens before
it. -/

inductive Emulation where
  | Chrome130
  | Safari16_5
deriving DecidableEq

/-- The fixed navigation `Accept` header value (engine.rs 230). -/
def accept_value : String :=
  "text/html,application/xhtml+xml,application/xml;q=0.9,image/avif,image/webp,*/*;q=0.8"

/-- The identity-relevant configuration of a built client. -/
structure ClientSpec where
  emulation : Emulation
  accept_header : String
  proxy : Option String
deriving DecidableEq

/-- `ClientFactory::create_client` (engine.rs 219-242). -/
def create_client (profiles : List (String × String)) (profile_key : String)
    (proxy_url : Option String) : Except String ClientSpec :=
  match profiles.lookup profile_key with
  | none => Except.error ("Profile not found: " ++ profile_key)
  | some impersonation_str =>
    let emulation :=
      if impersonation_str == "chrome_130" then Emulation.Chrome130
      else if impersonation_str == "safari_16" then Emulation.Safari16_5
      else Emulation.Chrome130
    Except.ok { emulation := emulation, accept_header := accept_value, proxy := proxy_url }

/-! ### Baseline hash block of `CoreEngine::run` (engine.rs 424-438)

Inside the worker loop, after the body is read, the code takes the lock on
`baseline_hash` and runs: if the stored baseline is `None` and the HTTP
status is 200, store the current structural hash; otherwise, if a baseline
is stored, flag a structural drift when the status is 200 and the current
hash differs.  The verdict from `ResponseAnalyzer::analyze` is computed only
after this block and plays no role in it. -/

/-- One execution of the baseline block: `(new stored baseline, drift flag)`. -/
def baselineStep (base : Option Nat) (status : Nat) (current_hash : Nat) :
    Option Nat × Bool :=
  if base.isNone && status == 200 then
    (some current_hash, false)
  else
    match base with
    | some base_val => (some base_val, status == 200 && current_hash != base_val)
    | none => (none, false)

/-- The response-processing slice of the worker loop relevant to the baseline:
hash the body, run the baseline block, classify.  Returns
`(new baseline, drift flag, verdict)`. -/
def processResponse (base : Option Nat) (status : Nat) (body : String) :
    Option Nat × Bool × Verdict :=
  let current_hash := structuralHash body
  let bd := baselineStep base status current_hash
  (bd.1, bd.2, analyze status body)

/-! ### Telemetry counters of the worker loop (engine.rs 358-364, 415-496)

`EngineStats` holds four atomic counters.  In the worker loop, an attempt
whose `create_client` call fails increments only `failed_requests`
(engine.rs 493-495); when the client builds, `total_requests` is incremented
first (engine.rs 417) and then exactly one of the three outcome counters:
`failed_requests` on a transport error, `successful_requests` on a Success
verdict or a solved challenge, `blocked_requests` on a Blocked verdict or a
failed challenge escalation.  The fold below replays those increments per
attempt outcome; quiescent counter values are the fold over the run's
outcome sequence. -/

structure EngineStats where
  total_requests : Nat
  successful_requests : Nat
  blocked_requests : Nat
  failed_requests : Nat
deriving DecidableEq

/-- How one worker-loop attempt ends, abstracting the external I/O results. -/
inductive AttemptOutcome where
  | buildFailed      -- `create_client` returned `Err` (engine.rs 493-495)
  | sendFailed       -- the HTTP send returned `Err` (engine.rs 485-490)
  | verdictSuccess   -- verdict `Success` (engine.rs 443-448)
  | verdictBlocked   -- verdict `Blocked` (engine.rs 449-454)
  | challengeSolved  -- verdict `Challenge`, solver succeeded (engine.rs 467-475)
  | challengeFailed  -- verdict `Challenge`, solver failed (engine.rs 476-481)
deriving DecidableEq

/-- The counter increments the worker loop performs for one attempt. -/
def stepStats (s : EngineStats) (a : AttemptOutcome) : EngineStats :=
  match a with
  | .buildFailed => { s with failed_requests := s.failed_requests + 1 }
  | .sendFailed =>
    { s with total_requests := s.total_requests + 1,
             failed_requests := s.failed_requests + 1 }
  | .verdictSuccess =>
    { s with total_requests := s.total_requests + 1,
             successful_requests := s.successful_requests + 1 }
  | .verdictBlocked =>
    { s with total_requests := s.total_requests + 1,
             blocked_requests := s.blocked_requests + 1 }
  | .challengeSolved =>
    { s with total_requests := s.total_requests + 1,
             successful_requests := s.successful_requests + 1 }
  | .challengeFailed =>
    { s with total_requests := s.total_requests + 1,
             blocked_requests := s.blocked_requests + 1 }

/-- Quiescent counters after a run with the given attempt outcomes. -/
def runStats (as : List AttemptOutcome) : EngineStats :=
  as.foldl stepStats ⟨0, 0, 0, 0⟩

/-! ### §4.1 Egress Node Pool — `GridManager` (engine.rs 294-355)

`Instant` is modelled as a `Nat` timestamp (seconds) and
`Duration::from_secs(60)` as the literal `60`.  The Rust loop in
`get_next_node` reads `Instant::now()` afresh at each cooldown check; the
model passes one `now` value for the whole call, the standard atomic-call
abstraction.  The `loop` is written with explicit fuel (`getNextNodeLoop`);
`none` at the outer `Option` layer means the fuel ran out before the loop
returned.  The termination theorem for claim C8 shows that fuel equal to the
pool size always suffices, so the fuelled function with `pool size + 1`
(`get_next_node`) is a total, faithful model of the loop. -/

structure Node where
  url : String
  failures : Nat
  cooldown_until : Option Nat
deriving DecidableEq

/-- Is the node's cooldown deadline set and still in the future?  Mirrors the
`Instant::now() < cooldown` test (engine.rs 321). -/
def Node.inCooldown (now : Nat) (nd : Node) : Bool :=
  match nd.cooldown_until with
  | some cd => now < cd
  | none => false

structure GridManager where
  nodes : List Node
  index : Nat
deriving DecidableEq

/-- `GridManager::new` (engine.rs 307-312). -/
def GridManager.new (proxies : List String) : GridManager :=
  { nodes := proxies.map (fun url => { url := url, failures := 0, cooldown_until := none }),
    index := 0 }

/-- `GridManager::advance` (engine.rs 336-339). -/
def GridManager.advance (gm : GridManager) : GridManager :=
  if gm.nodes.isEmpty then gm
  else { gm with index := (gm.index + 1) % gm.nodes.length }

/-- The body of the `loop` in `GridManager::get_next_node` (engine.rs 314-334),
iterated on explicit fuel.  `start_index` is the value `self.index` had when
the call began.  The result is `none` when the fuel runs out, otherwise
`some (returned value, final state)`.  The `nodes[idx]?` miss arm is
unreachable whenever `index < nodes.length` (the indexing invariant the Rust
vector access relies on). -/
def getNextNodeLoop (now start_index : Nat) :
    Nat → GridManager → Option (Option String × GridManager)
  | 0, _ => none
  | fuel + 1, gm =>
    if gm.nodes.isEmpty then some (none, gm)
    else
      match gm.nodes[gm.index]? with
      | none => some (none, gm)
      | some node =>
        match node.cooldown_until with
        | some cooldown =>
          if now < cooldown then
            let gm := gm.advance
            if gm.index == start_index then some (none, gm)
            else getNextNodeLoop now start_index fuel gm
          else
            let node := { node with cooldown_until := none, failures := 0 }
            let gm := { gm with nodes := gm.nodes.set gm.index node }
            some (some node.url, gm.advance)
        | none => some (some node.url, gm.advance)

/-- `GridManager::get_next_node` (engine.rs 314-334): run the loop with fuel
`pool size + 1`, which theorem `getNextNodeLoop_fuel_enough` shows is never
exhausted; the default arm is therefore dead code. -/
def get_next_node (now : Nat) (gm : GridManager) : Option String × GridManager :=
  (getNextNodeLoop now gm.index (gm.nodes.length + 1) gm).getD (none, gm)

/-- Mutate the first node whose `url` matches, as
`self.nodes.iter_mut().find(|n| n.url == proxy_url)` does. -/
def updateFirst (u : String) (f : Node → Node) : List Node → List Node
  | [] => []
  | nd :: rest => if nd.url == u then f nd :: rest else nd :: updateFirst u f rest

/-- `GridManager::report_failure` (engine.rs 341-348). -/
def report_failure (now : Nat) (proxy_url : String) (gm : GridManager) : GridManager :=
  { gm with
    nodes := updateFirst proxy_url (fun nd =>
      let nd := { nd with failures := nd.failures + 1 }
      if nd.failures > 3 then { nd with cooldown_until := some (now + 60) } else nd)
      gm.nodes }

/-- `GridManager::report_success` (engine.rs 350-354). -/
def report_success (proxy_url : String) (gm : GridManager) : GridManager :=
  { gm with
    nodes := updateFirst proxy_url (fun nd => { nd with failures := 0 }) gm.nodes }

/-- `count` consecutive `get_next_node` calls at one time `now`, collecting
the returned values in order. -/
def runCalls (now : Nat) : Nat → GridManager → List (Option String) × GridManager
  | 0, gm => ([], gm)
  | count + 1, gm =>
    let r := get_next_node now gm
    let rest := runCalls now count r.2
    (r.1 :: rest.1, rest.2)

/-- Number of `advance` steps needed to get from position `i` back to
position `s` in a pool of `k` nodes (with `i = s` counting a full cycle
`k`): the iteration-count measure of `getNextNodeLoop`. -/
def cyclicDist (k s i : Nat) : Nat :=
  if i < s then s - i else s + k - i

/-! ### Helper lemmas -/

/-- Replacing a list entry by itself changes nothing. -/
theorem list_set_self {α : Type} (l : List α) (i : Nat) (h : i < l.length) :
    l.set i l[i] = l := by
  apply List.ext_getElem
  · simp
  · intro n h1 h2
    rw [List.getElem_set]
    split
    · simp_all
    · rfl

/-- Counter invariant: one non-build-failed attempt preserves the balance
`total = success + blocked + failed`. -/
theorem stepStats_balance (s : EngineStats) (a : AttemptOutcome)
    (ha : a ≠ AttemptOutcome.buildFailed)
    (h : s.total_requests
        = s.successful_requests + s.blocked_requests + s.failed_requests) :
    (stepStats s a).total_requests
      = (stepStats s a).successful_requests + (stepStats s a).blocked_requests
        + (stepStats s a).failed_requests := by
  cases a <;> simp [stepStats] at * <;> omega

/-- Counter invariant, folded over a whole outcome list. -/
theorem foldl_stepStats_balance (as : List AttemptOutcome) :
    ∀ s : EngineStats, (∀ a ∈ as, a ≠ AttemptOutcome.buildFailed) →
      s.total_requests
        = s.successful_requests + s.blocked_requests + s.failed_requests →
      (as.foldl stepStats s).total_requests
        = (as.foldl stepStats s).successful_requests
          + (as.foldl stepStats s).blocked_requests
          + (as.foldl stepStats s).failed_requests := by
  induction as with
  | nil => intro s _ h; simpa using h
  | cons a rest ih =>
    intro s hall h
    simp only [List.foldl_cons]
    exact ih (stepStats s a) (fun x hx => hall x (List.mem_cons_of_mem a hx))
      (stepStats_balance s a (hall a (List.mem_cons_self a rest)) h)

/-! ### Claim theorems -/

/-- Claim C1: `ResponseAnalyzer::analyze` evaluates its rules in order with
first match winning.  Any body containing one of the success markers yields
`Success` regardless of the status and of any other marker present;
`analyze 200 "...Access Granted...captcha..." = Success`,
`analyze 403 "plain text" = Blocked "HTTP 403"`, and
`analyze 200 "Checking your browser before accessing"` is a `Challenge`. -/
theorem classifier_first_match_precedence :
    (∀ (status : Nat) (body : String),
        (containsSub body "OWASP Juice Shop" || containsSub body "app-root"
          || containsSub body "Access Granted") = true →
        analyze status body = Verdict.Success)
    ∧ analyze 200 "...Access Granted...captcha..." = Verdict.Success
    ∧ analyze 403 "plain text" = Verdict.Blocked "HTTP 403"
    ∧ analyze 200 "Checking your browser before accessing"
        = Verdict.Challenge "Generic JS" := by
  refine ⟨?_, by decide, by decide, by decide⟩
  intro status body h
  simp [analyze, h]

/-- Witness for C1 at a concrete input: a body holding a success marker next
to a block keyword still classifies as `Success`, even on status 500. -/
theorem classifier_first_match_precedence_witness :
    analyze 500 "zz Access Granted zz security check" = Verdict.Success :=
  classifier_first_match_precedence.1 500 "zz Access Granted zz security check"
    (by decide)

/-- Claim C10: the success-marker check of `ResponseAnalyzer::analyze` is
case-sensitive (it reads the raw body), unlike the challenge-marker and
block-keyword checks (which read the lowercased body): a 403 body with only
lowercase "access granted" stays `Blocked "HTTP 403"`, while "Access Granted"
gives `Success`; uppercase challenge and block markers are still detected. -/
theorem success_marker_case_sensitive :
    analyze 403 "access granted" = Verdict.Blocked "HTTP 403"
    ∧ analyze 403 "Access Granted" = Verdict.Success
    ∧ analyze 403 "CHECKING YOUR BROWSER" = Verdict.Challenge "Generic JS"
    ∧ analyze 200 "ACCESS DENIED" = Verdict.Blocked "Keyword: access denied" :=
  ⟨by decide, by decide, by decide, by decide⟩

/-- Counterexample to claim C2: a profile key missing from the mapping does
not fall back to a default identity — `create_client` fails with a
"Profile not found" error. -/
theorem create_client_unknown_profile_errors :
    create_client [("desktop", "chrome_130")] "nope" none
      = Except.error "Profile not found: nope" := rfl

/-- Claim C2 as amended: `create_client` fails with `Profile not found: key`
for every key missing from the profile mapping; the fallback to the default
`Chrome130` identity instead applies to profile values other than
"chrome_130" and "safari_16". -/
theorem create_client_unknown_profile_policy :
    (∀ (profiles : List (String × String)) (key : String) (proxy : Option String),
        profiles.lookup key = none →
        create_client profiles key proxy
          = Except.error ("Profile not found: " ++ key))
    ∧ ∀ (profiles : List (String × String)) (key s : String) (proxy : Option String),
        profiles.lookup key = some s → s ≠ "chrome_130" → s ≠ "safari_16" →
        create_client profiles key proxy
          = Except.ok { emulation := Emulation.Chrome130,
                        accept_header := accept_value, proxy := proxy } := by
  constructor
  · intro profiles key proxy h
    simp [create_client, h]
  · intro profiles key s proxy h hs1 hs2
    simp [create_client, h, hs1, hs2]

/-- Witness for the amended C2 at a concrete input. -/
theorem create_client_unknown_profile_policy_witness :
    create_client [("desktop", "chrome_130")] "mobile" none
      = Except.error "Profile not found: mobile" :=
  create_client_unknown_profile_policy.1 [("desktop", "chrome_130")] "mobile" none
    (by decide)

/-- Counterexample to claim C3: the baseline block keys on HTTP status 200,
not on the classifier verdict.  A 200 response whose body is a challenge
interstitial (classified `Challenge`, not `Success`) still sets the baseline
hash. -/
theorem baseline_tracks_status_not_verdict_cex :
    (processResponse none 200 "Checking your browser before accessing").2.2
        = Verdict.Challenge "Generic JS"
    ∧ (processResponse none 200 "Checking your browser before accessing").1
        = some (structuralHash "Checking your browser before accessing")
    ∧ (processResponse none 204 "").2.2 = Verdict.Success
    ∧ (processResponse none 204 "").1 = none :=
  ⟨by decide, by decide, by decide, by decide⟩

/-- Claim C3 as amended: the baseline is set exactly from the first response
with HTTP status 200 (whatever the classifier verdict), and the drift
comparison runs exactly for later responses with status 200 against the
stored value, which is never overwritten; responses with other statuses
neither set the baseline nor trigger a comparison. -/
theorem baseline_tracks_status_200 :
    (∀ (status current_hash : Nat), status ≠ 200 →
        baselineStep none status current_hash = (none, false))
    ∧ (∀ current_hash : Nat,
        baselineStep none 200 current_hash = (some current_hash, false))
    ∧ (∀ (base_val status current_hash : Nat),
        baselineStep (some base_val) status current_hash
          = (some base_val, status == 200 && current_hash != base_val)) := by
  refine ⟨?_, ?_, ?_⟩
  · intro status current_hash h
    simp [baselineStep, h]
  · intro current_hash
    simp [baselineStep]
  · intro base_val status current_hash
    simp [baselineStep]

/-- Witness for the amended C3 at a concrete input. -/
theorem baseline_tracks_status_200_witness :
    baselineStep none 404 7 = (none, false) :=
  baseline_tracks_status_200.1 404 7 (by decide)

/-- Claim C4: over any run whose attempts all build a client, the quiescent
counters satisfy `total = success + blocked + failed`; an attempt failing at
client-build time increments only `failed_requests` and leaves
`total_requests` (and the other counters) untouched. -/
theorem counter_consistency :
    (∀ as : List AttemptOutcome, (∀ a ∈ as, a ≠ AttemptOutcome.buildFailed) →
        (runStats as).total_requests
          = (runStats as).successful_requests + (runStats as).blocked_requests
            + (runStats as).failed_requests)
    ∧ ∀ s : EngineStats, stepStats s AttemptOutcome.buildFailed
        = { s with failed_requests := s.failed_requests + 1 } := by
  constructor
  · intro as hall
    exact foldl_stepStats_balance as ⟨0, 0, 0, 0⟩ hall rfl
  · intro s
    rfl

/-- Witness for C4 at a concrete run: one success, one blocked, one network
failure — totals balance. -/
theorem counter_consistency_witness :
    (runStats [AttemptOutcome.verdictSuccess, AttemptOutcome.verdictBlocked,
               AttemptOutcome.sendFailed]).total_requests
      = (runStats [AttemptOutcome.verdictSuccess, AttemptOutcome.verdictBlocked,
                   AttemptOutcome.sendFailed]).successful_requests
        + (runStats [AttemptOutcome.verdictSuccess, AttemptOutcome.verdictBlocked,
                     AttemptOutcome.sendFailed]).blocked_requests
        + (runStats [AttemptOutcome.verdictSuccess, AttemptOutcome.verdictBlocked,
                     AttemptOutcome.sendFailed]).failed_requests :=
  counter_consistency.1
    [AttemptOutcome.verdictSuccess, AttemptOutcome.verdictBlocked,
     AttemptOutcome.sendFailed]
    (by intro a ha; fin_cases ha <;> decide)

/-- Claim C9: `StructuralHasher::hash` depends only on the in-tag characters:
bodies with the same tag skeleton hash identically (in particular
`hash "<div>A</div>" = hash "<div>B</div>"`), while reordering tags changes
the hash (`hash "<div><span></span></div>" ≠ hash "<span><div></div></span>"`). -/
theorem skeleton_hash_invariants :
    (∀ b₁ b₂ : String, skeletonChars b₁ = skeletonChars b₂ →
        structuralHash b₁ = structuralHash b₂)
    ∧ structuralHash "<div>A</div>" = structuralHash "<div>B</div>"
    ∧ structuralHash "<div><span></span></div>"
        ≠ structuralHash "<span><div></div></span>" := by
  refine ⟨?_, by decide, by decide⟩
  intro b₁ b₂ h
  unfold structuralHash
  rw [h]

/-- Witness for C9 at a concrete input: same tag skeleton, different visible
text, equal hashes. -/
theorem skeleton_hash_invariants_witness :
    structuralHash "<p>hello</p>" = structuralHash "<p>world</p>" :=
  skeleton_hash_invariants.1 "<p>hello</p>" "<p>world</p>" (by decide)

/-- Claim C7: when `get_next_node` reaches a node whose cooldown deadline has
passed (deadline ≤ now), it clears the deadline, resets the failure count to
zero, stores the updated node, and returns that node's url, advancing the
cursor past it. -/
theorem cooldown_recovery (now cd : Nat) (gm : GridManager) (nd : Node)
    (hidx : gm.nodes[gm.index]? = some nd)
    (hcd : nd.cooldown_until = some cd) (hpassed : cd ≤ now) :
    get_next_node now gm
      = (some nd.url,
         GridManager.advance
           { gm with
             nodes := gm.nodes.set gm.index
               { nd with cooldown_until := none, failures := 0 } }) := by
  have hne : gm.nodes.isEmpty = false := by
    cases h : gm.nodes with
    | nil => rw [h] at hidx; simp at hidx
    | cons a l => simp [h]
  have hnotlt : ¬ now < cd := Nat.not_lt.mpr hpassed
  simp [get_next_node, getNextNodeLoop, hne, hidx, hcd, hnotlt]

/-- Witness for C7 at a concrete input: a single node whose deadline 5 has
just been reached at time 5 is reset and returned. -/
theorem cooldown_recovery_witness :
    get_next_node 5 { nodes := [⟨"a", 2, some 5⟩], index := 0 }
      = (some "a", { nodes := [⟨"a", 0, none⟩], index := 0 }) := by
  have h := cooldown_recovery 5 5 { nodes := [⟨"a", 2, some 5⟩], index := 0 }
    ⟨"a", 2, some 5⟩ (by decide) (by decide) (by decide)
  simpa [GridManager.advance] using h

/-- The loop measure drops by one at each `advance` that does not land back
on the start position. -/
theorem cyclicDist_advance (k s i : Nat) (hi : i < k) (hs : s < k)
    (hne : (i + 1) % k ≠ s) :
    cyclicDist k s ((i + 1) % k) + 1 = cyclicDist k s i := by
  rcases Nat.lt_or_ge (i + 1) k with hlt | hge
  · rw [Nat.mod_eq_of_lt hlt]
    rw [Nat.mod_eq_of_lt hlt] at hne
    unfold cyclicDist
    split <;> split <;> omega
  · have hik : i + 1 = k := by omega
    rw [hik, Nat.mod_self]
    rw [hik, Nat.mod_self] at hne
    unfold cyclicDist
    split <;> split <;> omega

/-- The loop measure is positive whenever both positions are in range. -/
theorem cyclicDist_pos (k s i : Nat) (hi : i < k) :
    1 ≤ cyclicDist k s i := by
  unfold cyclicDist
  split <;> omega

/-- Fuel sufficiency for the `get_next_node` loop: `cyclicDist` many
iterations always reach a `return`. -/
theorem getNextNodeLoop_fuel_enough (now s : Nat) :
    ∀ (fuel : Nat) (gm : GridManager), gm.index < gm.nodes.length →
      s < gm.nodes.length → cyclicDist gm.nodes.length s gm.index ≤ fuel →
      (getNextNodeLoop now s fuel gm).isSome = true := by
  intro fuel
  induction fuel with
  | zero =>
    intro gm hi hs hd
    have := cyclicDist_pos gm.nodes.length s gm.index hi
    omega
  | succ fuel ih =>
    intro gm hi hs hd
    have hne : gm.nodes.isEmpty = false := by
      cases h : gm.nodes with
      | nil => rw [h] at hi; simp at hi
      | cons a l => simp [h]
    have hget : gm.nodes[gm.index]? = some gm.nodes[gm.index] :=
      List.getElem?_eq_getElem hi
    rw [getNextNodeLoop]
    simp only [hne, Bool.false_eq_true, if_false, hget]
    cases hcd : gm.nodes[gm.index].cooldown_until with
    | none => simp
    | some cd =>
      by_cases hlt : now < cd
      · simp only [hlt, if_true]
        have hlen : gm.advance.nodes.length = gm.nodes.length := by
          simp [GridManager.advance, hne]
        have hk : 0 < gm.nodes.length := Nat.lt_of_le_of_lt (Nat.zero_le _) hi
        have hidx2 : gm.advance.index = (gm.index + 1) % gm.nodes.length := by
          simp [GridManager.advance, hne]
        by_cases heq : gm.advance.index == s
        · simp [heq]
        · simp only [heq, Bool.false_eq_true, if_false]
          have hne2 : (gm.index + 1) % gm.nodes.length ≠ s := by
            rw [← hidx2]
            exact fun h => by simp [h] at heq
          apply ih
          · rw [hlen, hidx2]
            exact Nat.mod_lt _ hk
          · rw [hlen]; exact hs
          · rw [hlen, hidx2]
            have := cyclicDist_advance gm.nodes.length s gm.index hi hs hne2
            omega
      · simp [hlt]

/-- Every node the loop returns was eligible at call time: its url belongs to
a pool node that was not in cooldown. -/
theorem getNextNodeLoop_returns_eligible (now s : Nat) :
    ∀ (fuel : Nat) (gm : GridManager) (r : String) (gm₂ : GridManager),
      getNextNodeLoop now s fuel gm = some (some r, gm₂) →
      ∃ nd ∈ gm.nodes, nd.url = r ∧ nd.inCooldown now = false := by
  intro fuel
  induction fuel with
  | zero => intro gm r gm₂ h; simp [getNextNodeLoop] at h
  | succ fuel ih =>
    intro gm r gm₂ h
    rw [getNextNodeLoop] at h
    by_cases hne : gm.nodes.isEmpty
    · simp [hne] at h
    · simp only [hne, if_false, Bool.false_eq_true] at h
      cases hget : gm.nodes[gm.index]? with
      | none => rw [hget] at h; simp at h
      | some nd =>
        rw [hget] at h
        have hmem : nd ∈ gm.nodes := by
          have hi : gm.index < gm.nodes.length := by
            by_contra hc
            rw [List.getElem?_eq_none (Nat.le_of_not_lt hc)] at hget
            cases hget
          have := List.getElem?_eq_getElem hi
          rw [this] at hget
          cases hget
          exact List.getElem_mem hi
        cases hcd : nd.cooldown_until with
        | none =>
          simp only [hcd, Option.some.injEq, Prod.mk.injEq] at h
          rcases h with ⟨hr, _⟩
          exact ⟨nd, hmem, hr, by simp [Node.inCooldown, hcd]⟩
        | some cd =>
          simp only [hcd] at h
          by_cases hlt : now < cd
          · simp only [hlt, if_true] at h
            by_cases heq : (gm.advance).index == s
            · simp [heq] at h
            · simp only [heq, Bool.false_eq_true, if_false] at h
              have hadv : gm.advance.nodes = gm.nodes := by
                unfold GridManager.advance
                split <;> rfl
              rcases ih gm.advance r gm₂ h with ⟨nd2, hmem2, hurl2, helig2⟩
              exact ⟨nd2, hadv ▸ hmem2, hurl2, helig2⟩
          · simp only [hlt, if_false, Option.some.injEq, Prod.mk.injEq] at h
            rcases h with ⟨hr, _⟩
            exact ⟨nd, hmem, hr, by simp [Node.inCooldown, hcd, hlt]⟩

/-- When every node is in cooldown, the loop can only ever return `none`. -/
theorem getNextNodeLoop_all_cooldown (now s : Nat) :
    ∀ (fuel : Nat) (gm : GridManager),
      (∀ nd ∈ gm.nodes, nd.inCooldown now = true) →
      ∀ (r : Option String) (gm₂ : GridManager),
        getNextNodeLoop now s fuel gm = some (r, gm₂) → r = none := by
  intro fuel gm hall r gm₂ h
  cases r with
  | none => rfl
  | some u =>
    rcases getNextNodeLoop_returns_eligible now s fuel gm u gm₂ h with
      ⟨nd, hmem, _, helig⟩
    rw [hall nd hmem] at helig
    cases helig

/-- Claim C8: `get_next_node` terminates after scanning at most one full
cycle — fuel equal to the pool size already makes the loop return — and when
the pool is empty, or every node is in cooldown, the call returns `none`
rather than looping or blocking. -/
theorem starvation_bound :
    (∀ (now : Nat) (gm : GridManager), gm.index < gm.nodes.length →
        (getNextNodeLoop now gm.index gm.nodes.length gm).isSome = true)
    ∧ (∀ (now : Nat) (gm : GridManager), gm.nodes = [] →
        get_next_node now gm = (none, gm))
    ∧ (∀ (now : Nat) (gm : GridManager),
        (∀ nd ∈ gm.nodes, nd.inCooldown now = true) →
        (get_next_node now gm).1 = none) := by
  refine ⟨?_, ?_, ?_⟩
  · intro now gm hi
    apply getNextNodeLoop_fuel_enough now gm.index gm.nodes.length gm hi hi
    unfold cyclicDist
    split <;> omega
  · intro now gm h
    simp [get_next_node, getNextNodeLoop, h]
  · intro now gm hall
    unfold get_next_node
    cases hloop : getNextNodeLoop now gm.index (gm.nodes.length + 1) gm with
    | none => simp
    | some p =>
      have := getNextNodeLoop_all_cooldown now gm.index (gm.nodes.length + 1)
        gm hall p.1 p.2 (by rw [hloop])
      simp [this]

/-- Witness for C8 at a concrete input: a two-node pool, both in cooldown at
time 0, yields `none`. -/
theorem starvation_bound_witness :
    (get_next_node 0
        { nodes := [⟨"a", 4, some 10⟩, ⟨"b", 5, some 99⟩], index := 0 }).1
      = none :=
  starvation_bound.2.2 0
    { nodes := [⟨"a", 4, some 10⟩, ⟨"b", 5, some 99⟩], index := 0 }
    (by
      intro nd hnd
      rcases List.mem_cons.mp hnd with rfl | h2
      · decide
      · rcases List.mem_singleton.mp h2 with rfl
        decide)

/-- Peeling one step off a rotation: the first element of `l.rotate i` is
`l[i]`, and the remaining prefix continues from the advanced cursor. -/
theorem rotate_take_step {α : Type} (l : List α) (i m : Nat) (hi : i < l.length)
    (hm : m + 1 ≤ l.length) :
    (l.rotate i).take (m + 1)
      = l[i] :: ((l.rotate ((i + 1) % l.length)).take m) := by
  rw [List.rotate_eq_drop_append_take (Nat.le_of_lt hi)]
  rw [List.drop_eq_getElem_cons hi]
  rw [List.cons_append, List.take_succ_cons]
  rcases Nat.lt_or_ge (i + 1) l.length with hA | hB
  · rw [Nat.mod_eq_of_lt hA]
    rw [List.rotate_eq_drop_append_take (Nat.le_of_lt hA)]
    rw [List.take_succ, List.getElem?_eq_getElem hi]
    have hlen : m ≤ (l.drop (i + 1) ++ l.take i).length := by
      simp [List.length_drop, List.length_take]
      omega
    rw [show l.drop (i + 1) ++ (l.take i ++ (some l[i]).toList)
          = (l.drop (i + 1) ++ l.take i) ++ [l[i]] by
        simp [List.append_assoc]]
    rw [List.take_append_of_le_length hlen]
  · have hik : i + 1 = l.length := by omega
    rw [hik, Nat.mod_self, List.rotate_zero]
    rw [List.drop_length, List.nil_append]
    have hmi : min m i = m := by omega
    rw [List.take_take, hmi]

/-- One `get_next_node` call on a pool whose nodes are all eligible returns
the url under the cursor, advances the cursor by one, and preserves the url
sequence and the all-eligible property. -/
theorem get_next_node_eligible (now : Nat) (gm : GridManager)
    (hidx : gm.index < gm.nodes.length)
    (helig : ∀ nd ∈ gm.nodes, nd.inCooldown now = false) :
    ∃ gm₂ : GridManager,
      get_next_node now gm = (some gm.nodes[gm.index].url, gm₂)
      ∧ gm₂.nodes.map Node.url = gm.nodes.map Node.url
      ∧ gm₂.index = (gm.index + 1) % gm.nodes.length
      ∧ ∀ nd ∈ gm₂.nodes, nd.inCooldown now = false := by
  have hne : gm.nodes.isEmpty = false := by
    cases h : gm.nodes with
    | nil => rw [h] at hidx; simp at hidx
    | cons a l => simp [h]
  have hget : gm.nodes[gm.index]? = some gm.nodes[gm.index] :=
    List.getElem?_eq_getElem hidx
  have hmem : gm.nodes[gm.index] ∈ gm.nodes := List.getElem_mem hidx
  cases hcd : gm.nodes[gm.index].cooldown_until with
  | none =>
    refine ⟨gm.advance, ?_, ?_, ?_, ?_⟩
    · simp [get_next_node, getNextNodeLoop, hne, hget, hcd]
    · simp [GridManager.advance, hne]
    · simp [GridManager.advance, hne]
    · intro nd hnd
      apply helig
      have : gm.advance.nodes = gm.nodes := by simp [GridManager.advance, hne]
      rwa [this] at hnd
  | some cd =>
    have hcool := helig gm.nodes[gm.index] hmem
    rw [Node.inCooldown, hcd] at hcool
    have hnotlt : ¬ now < cd := by simpa using hcool
    set nd2 : Node :=
      { gm.nodes[gm.index] with cooldown_until := none, failures := 0 } with hnd2
    have hmaplt : gm.index < (gm.nodes.map Node.url).length := by simpa using hidx
    have hseturl : (gm.nodes.set gm.index nd2).map Node.url
        = gm.nodes.map Node.url := by
      rw [List.map_set]
      have : Node.url nd2 = (gm.nodes.map Node.url)[gm.index] := by
        simp [hnd2]
      rw [this]
      exact list_set_self (gm.nodes.map Node.url) gm.index hmaplt
    have hsetlen : (gm.nodes.set gm.index nd2).length = gm.nodes.length := by
      simp
    have hsetne : (gm.nodes.set gm.index nd2).isEmpty = false := by
      cases h : gm.nodes.set gm.index nd2 with
      | nil =>
        rw [h] at hsetlen
        simp at hsetlen
        omega
      | cons a l => simp [h]
    refine ⟨GridManager.advance
        { gm with nodes := gm.nodes.set gm.index nd2 }, ?_, ?_, ?_, ?_⟩
    · simp [get_next_node, getNextNodeLoop, hne, hget, hcd, hnotlt, hnd2]
    · have : (GridManager.advance { gm with nodes := gm.nodes.set gm.index nd2 }).nodes
          = gm.nodes.set gm.index nd2 := by
        simp [GridManager.advance, hsetne]
      rw [this, hseturl]
    · simp [GridManager.advance, hsetne, hsetlen]
    · intro nd hnd
      have : (GridManager.advance { gm with nodes := gm.nodes.set gm.index nd2 }).nodes
          = gm.nodes.set gm.index nd2 := by
        simp [GridManager.advance, hsetne]
      rw [this] at hnd
      rcases List.mem_or_eq_of_mem_set hnd with hmem2 | rfl
      · exact helig nd hmem2
      · simp [Node.inCooldown, hnd2]

/-- With every node eligible, `m ≤ k` consecutive calls return the first `m`
urls of the pool rotated to the cursor position. -/
theorem runCalls_eligible (now : Nat) :
    ∀ (m : Nat) (gm : GridManager), gm.index < gm.nodes.length →
      (∀ nd ∈ gm.nodes, nd.inCooldown now = false) → m ≤ gm.nodes.length →
      (runCalls now m gm).1
        = ((gm.nodes.map (fun nd => some nd.url)).rotate gm.index).take m := by
  intro m
  induction m with
  | zero => intro gm _ _ _; simp [runCalls]
  | succ m ih =>
    intro gm hidx helig hm
    obtain ⟨gm₂, hcall, hmap, hidx2, helig2⟩ := get_next_node_eligible now gm hidx helig
    have hk : 0 < gm.nodes.length := by omega
    have hlen2 : gm₂.nodes.length = gm.nodes.length := by
      have := congrArg List.length hmap
      simpa using this
    have hmap2 : gm₂.nodes.map (fun nd => some nd.url)
        = gm.nodes.map (fun nd => some nd.url) := by
      have h1 : (gm₂.nodes.map Node.url).map some
          = (gm.nodes.map Node.url).map some := by rw [hmap]
      rw [List.map_map, List.map_map] at h1
      exact h1
    have hidx2lt : gm₂.index < gm₂.nodes.length := by
      rw [hlen2, hidx2]
      exact Nat.mod_lt _ hk
    have hrec := ih gm₂ hidx2lt helig2 (by omega)
    rw [runCalls]
    simp only [hcall, hrec]
    rw [hmap2, hidx2]
    have hmaplt2 : gm.index < (gm.nodes.map (fun nd => some nd.url)).length := by
      simpa using hidx
    have hgetmap : (gm.nodes.map (fun nd => some nd.url))[gm.index]
        = some gm.nodes[gm.index].url := by
      simp
    rw [rotate_take_step (gm.nodes.map (fun nd => some nd.url)) gm.index m
      (by simpa using hidx) (by simpa using hm)]
    rw [hgetmap]
    simp

/-- Claim C5: for a pool of `k` nodes none of which is in cooldown, `k`
consecutive `get_next_node` calls return each node's url exactly once, in the
fixed cyclic order starting at the cursor position. -/
theorem rotation_fairness (now : Nat) (gm : GridManager)
    (hidx : gm.index < gm.nodes.length)
    (helig : ∀ nd ∈ gm.nodes, nd.inCooldown now = false) :
    (runCalls now gm.nodes.length gm).1
        = (gm.nodes.map (fun nd => some nd.url)).rotate gm.index
    ∧ List.Perm (runCalls now gm.nodes.length gm).1
        (gm.nodes.map (fun nd => some nd.url)) := by
  have h := runCalls_eligible now gm.nodes.length gm hidx helig (Nat.le_refl _)
  have hfull : ((gm.nodes.map (fun nd => some nd.url)).rotate gm.index).take
      gm.nodes.length
      = (gm.nodes.map (fun nd => some nd.url)).rotate gm.index := by
    apply List.take_of_length_le
    simp [List.length_rotate]
  rw [hfull] at h
  exact ⟨h, h ▸ List.rotate_perm (gm.nodes.map (fun nd => some nd.url)) gm.index⟩

/-- Witness for C5 at a concrete input: three eligible nodes, three calls,
each url exactly once in cyclic order from the cursor. -/
theorem rotation_fairness_witness :
    (runCalls 0 (GridManager.new ["a", "b", "c"]).nodes.length
        (GridManager.new ["a", "b", "c"])).1
      = ((GridManager.new ["a", "b", "c"]).nodes.map
          (fun nd => some nd.url)).rotate (GridManager.new ["a", "b", "c"]).index :=
  (rotation_fairness 0 (GridManager.new ["a", "b", "c"]) (by decide)
    (by
      intro nd hnd
      rcases List.mem_cons.mp hnd with rfl | h2
      · decide
      · rcases List.mem_cons.mp h2 with rfl | h3
        · decide
        · rcases List.mem_singleton.mp h3 with rfl
          decide)).1

/-- `updateFirst` hits exactly the marked node when no earlier node carries
the url. -/
theorem updateFirst_split (u : String) (f : Node → Node) (pre post : List Node)
    (nd : Node) (hpre : ∀ m ∈ pre, m.url ≠ u) (hurl : nd.url = u) :
    updateFirst u f (pre ++ nd :: post) = pre ++ f nd :: post := by
  induction pre with
  | nil => simp [updateFirst, hurl]
  | cons p ps ih =>
    have hp : (p.url == u) = false := by
      have := hpre p (List.mem_cons_self p ps)
      simpa using this
    rw [List.cons_append, updateFirst, hp]
    simp only [Bool.false_eq_true, if_false, List.cons_append, List.cons.injEq,
      true_and]
    exact ih fun m hm => hpre m (List.mem_cons_of_mem p hm)

/-- Claim C6: starting from a node with failure count 0 that is the only
holder of its url, the fourth `report_failure` with no intervening success
drives its count to 4 (above the threshold 3) and stamps the cooldown
deadline `t₄ + 60`; while the current time is before that deadline,
`get_next_node` never returns that node. -/
theorem cooldown_trigger (gm : GridManager) (u : String) (nd : Node)
    (pre post : List Node) (t₁ t₂ t₃ t₄ : Nat)
    (hsplit : gm.nodes = pre ++ nd :: post)
    (hurl : nd.url = u) (hfail : nd.failures = 0)
    (hothers : ∀ m : Node, m ∈ pre ∨ m ∈ post → m.url ≠ u) :
    (report_failure t₄ u (report_failure t₃ u (report_failure t₂ u
        (report_failure t₁ u gm)))).nodes
      = pre ++ { nd with failures := 4, cooldown_until := some (t₄ + 60) } :: post
    ∧ ∀ now : Nat, now < t₄ + 60 →
        (get_next_node now (report_failure t₄ u (report_failure t₃ u
          (report_failure t₂ u (report_failure t₁ u gm))))).1 ≠ some u := by
  have hpre : ∀ m ∈ pre, m.url ≠ u := fun m hm => hothers m (Or.inl hm)
  have h1 : (report_failure t₁ u gm).nodes
      = pre ++ { nd with failures := 1 } :: post := by
    show updateFirst u _ gm.nodes = _
    rw [hsplit, updateFirst_split u _ pre post nd hpre hurl]
    simp [hfail]
  have h2 : (report_failure t₂ u (report_failure t₁ u gm)).nodes
      = pre ++ { nd with failures := 2 } :: post := by
    show updateFirst u _ (report_failure t₁ u gm).nodes = _
    rw [h1, updateFirst_split u _ pre post { nd with failures := 1 } hpre
      (by simpa using hurl)]
    simp
  have h3 : (report_failure t₃ u (report_failure t₂ u
      (report_failure t₁ u gm))).nodes
      = pre ++ { nd with failures := 3 } :: post := by
    show updateFirst u _ (report_failure t₂ u (report_failure t₁ u gm)).nodes = _
    rw [h2, updateFirst_split u _ pre post { nd with failures := 2 } hpre
      (by simpa using hurl)]
    simp
  have h4 : (report_failure t₄ u (report_failure t₃ u (report_failure t₂ u
      (report_failure t₁ u gm)))).nodes
      = pre ++ { nd with failures := 4, cooldown_until := some (t₄ + 60) } :: post := by
    show updateFirst u _ (report_failure t₃ u (report_failure t₂ u
      (report_failure t₁ u gm))).nodes = _
    rw [h3, updateFirst_split u _ pre post { nd with failures := 3 } hpre
      (by simpa using hurl)]
    simp
  refine ⟨h4, ?_⟩
  intro now hnow hcontra
  have hall : ∀ m ∈ (report_failure t₄ u (report_failure t₃ u (report_failure t₂ u
      (report_failure t₁ u gm)))).nodes, m.url = u → m.inCooldown now = true := by
    intro m hm hmu
    rw [h4] at hm
    rcases List.mem_append.mp hm with hmp | hmc
    · exact absurd hmu (hothers m (Or.inl hmp))
    · rcases List.mem_cons.mp hmc with rfl | hmp
      · simp [Node.inCooldown, hnow]
      · exact absurd hmu (hothers m (Or.inr hmp))
  rw [get_next_node] at hcontra
  cases hloop : getNextNodeLoop now
      (report_failure t₄ u (report_failure t₃ u (report_failure t₂ u
        (report_failure t₁ u gm)))).index
      ((report_failure t₄ u (report_failure t₃ u (report_failure t₂ u
        (report_failure t₁ u gm)))).nodes.length + 1)
      (report_failure t₄ u (report_failure t₃ u (report_failure t₂ u
        (report_failure t₁ u gm)))) with
  | none => rw [hloop] at hcontra; simp at hcontra
  | some p =>
    rw [hloop] at hcontra
    simp only [Option.getD_some] at hcontra
    rcases getNextNodeLoop_returns_eligible now _ _ _ u p.2
        (by rw [hloop, ← hcontra]) with ⟨m, hm, hmu, hmelig⟩
    rw [hall m hm hmu] at hmelig
    cases hmelig

/-- Witness for C6 at a concrete input: node "p1" in a two-node pool, four
failures at time 0, checked at time 30 (before deadline 60). -/
theorem cooldown_trigger_witness :
    (report_failure 0 "p1" (report_failure 0 "p1" (report_failure 0 "p1"
        (report_failure 0 "p1"
          { nodes := [⟨"p1", 0, none⟩, ⟨"p2", 0, none⟩], index := 0 })))).nodes
      = [⟨"p1", 4, some 60⟩, ⟨"p2", 0, none⟩]
    ∧ (get_next_node 30 (report_failure 0 "p1" (report_failure 0 "p1"
        (report_failure 0 "p1" (report_failure 0 "p1"
          { nodes := [⟨"p1", 0, none⟩, ⟨"p2", 0, none⟩], index := 0 }))))).1
      ≠ some "p1" := by
  have h := cooldown_trigger
    { nodes := [⟨"p1", 0, none⟩, ⟨"p2", 0, none⟩], index := 0 } "p1"
    ⟨"p1", 0, none⟩ [] [⟨"p2", 0, none⟩] 0 0 0 0 rfl rfl rfl
    (by
      intro m hm
      rcases hm with hmp | hmp
      · cases hmp
      · rcases List.mem_singleton.mp hmp with rfl
        decide)
  exact ⟨h.1, h.2 30 (by decide)⟩

end Spectre
